import Mathlib

/-
  Verification development for the pix2pix-style training script
  `model_training.py` (fin-segmentation GAN trainer).

  The script is shallowly embedded: images are dimension-carrying arrays of
  rational pixel intensities, file contents are decoded-image payloads tagged
  with their on-disk format, the filesystem is a partial map from paths to
  contents, and every source of randomness (crop offset, flip draw, dataset
  shuffling seed) is passed as an explicit parameter.  TensorFlow library
  operations used by the script (nearest-neighbour resize, joint random crop,
  horizontal flip, jpeg decoding, file listing) are modelled by explicit
  Lean functions, and Python's `str.replace` (which substitutes every
  non-overlapping occurrence, scanning left to right) is modelled by a
  fuel-indexed structural recursion so that it evaluates inside the kernel.
-/

namespace ModelTraining

/-- A decoded image: a (height, width, channels) tensor of rational pixel
intensities.  `pix i j c` is the intensity at row `i`, column `j`,
channel `c`. -/
structure Image where
  height : Nat
  width : Nat
  channels : Nat
  pix : Nat → Nat → Nat → ℚ

/-- `IMG_WIDTH = 512` from the script's module constants. -/
def IMG_WIDTH : Nat := 512

/-- `IMG_HEIGHT = 512` from the script's module constants. -/
def IMG_HEIGHT : Nat := 512

/-- `BATCH_SIZE = 1` from the script's module constants. -/
def BATCH_SIZE : Nat := 1

/-- Nearest-neighbour source index for `tf.image.resize(...,
method=NEAREST_NEIGHBOR)`: destination row/column `i` of a `dst`-sized axis
reads source index `floor((i + 1/2) * src / dst)`, clamped to the axis. -/
def nnIdx (src dst i : Nat) : Nat :=
  min (src - 1) ((2 * i + 1) * src / (2 * dst))

/-- Model of `tf.image.resize(img, [height, width], method=NEAREST_NEIGHBOR)`
applied to one image. -/
def resizeImg (img : Image) (height width : Nat) : Image :=
  { height := height
    width := width
    channels := img.channels
    pix := fun i j c => img.pix (nnIdx img.height height i) (nnIdx img.width width j) c }

/-- `resize(input_image, real_image, height, width)` from the script:
nearest-neighbour resize of both images to the same target size. -/
def resize (input_image real_image : Image) (height width : Nat) : Image × Image :=
  (resizeImg input_image height width, resizeImg real_image height width)

/-- One image cropped to a `IMG_HEIGHT × IMG_WIDTH × 3` window at row/column
offset `(dy, dx)` — the effect of `tf.image.random_crop` with size
`[2, IMG_HEIGHT, IMG_WIDTH, 3]` on one slice of the stacked pair, where the
single random offset drawn by the op is `(dy, dx)`. -/
def cropImg (img : Image) (dy dx : Nat) : Image :=
  { height := IMG_HEIGHT
    width := IMG_WIDTH
    channels := 3
    pix := fun i j c => img.pix (i + dy) (j + dx) c }

/-- `random_crop(input_image, real_image)` from the script: the two images are
stacked and cropped with `tf.image.random_crop(stacked, [2, 512, 512, 3])`,
so one offset `(dy, dx)` (the op's single random draw, passed here
explicitly) is applied to both slices. -/
def random_crop (input_image real_image : Image) (dy dx : Nat) : Image × Image :=
  (cropImg input_image dy dx, cropImg real_image dy dx)

/-- Model of `tf.image.flip_left_right`: reverse the column axis. -/
def flip_left_right (img : Image) : Image :=
  { height := img.height
    width := img.width
    channels := img.channels
    pix := fun i j c => img.pix i (img.width - 1 - j) c }

/-- Pointwise `(x / 127.5) - 1` on one image. -/
def normalizeImg (img : Image) : Image :=
  { height := img.height
    width := img.width
    channels := img.channels
    pix := fun i j c => img.pix i j c / 127.5 - 1 }

/-- `normalize(input_image, real_image)` from the script: both images mapped
from `[0,255]` to `[-1,1]` via `(x / 127.5) - 1`. -/
def normalize (input_image real_image : Image) : Image × Image :=
  (normalizeImg input_image, normalizeImg real_image)

/-- `denormalize`, modelled from the spec's testable property: the inverse
map `(x + 1) * 127.5` (the script itself only rescales by `* 0.5 + 0.5` for
display). -/
def denormalize (x : ℚ) : ℚ := (x + 1) * 127.5

/-- `random_jitter(input_image, real_image)` from the script: resize both
images to `542 × 542`, jointly random-crop back to `512 × 512`, and with the
single uniform draw `u` (`tf.random.uniform(())`) flip both horizontally
when `u > 0.5`.  The crop offset `(dy, dx)` and the flip draw `u` are the
op-level random values, passed explicitly. -/
def random_jitter (input_image real_image : Image) (dy dx : Nat) (u : ℚ) :
    Image × Image :=
  let ir1 := resize input_image real_image 542 542
  let ir2 := random_crop ir1.1 ir1.2 dy dx
  if u > 1 / 2 then (flip_left_right ir2.1, flip_left_right ir2.2) else ir2

/-- The geometric transform that `random_jitter` applies to each of the two
images, as a single-image function of the shared random values. -/
def jitterOne (img : Image) (dy dx : Nat) (u : ℚ) : Image :=
  let i1 := resizeImg img 542 542
  let i2 := cropImg i1 dy dx
  if u > 1 / 2 then flip_left_right i2 else i2

/-- File paths, as character lists. -/
abbrev Path := List Char

/-- Worker for Python's `str.replace(old, new)`: scan left to right; whenever
`pat` is a prefix of the remaining text emit `repl` and skip `pat`, otherwise
emit one character and continue.  The fuel argument (always instantiated with
the text's length, which bounds the number of steps for nonempty `pat`) makes
the recursion structural so the function evaluates in the kernel. -/
def replAux (pat repl : Path) : Nat → Path → Path
  | _, [] => []
  | 0, l => l
  | fuel + 1, c :: rest =>
    if pat.isPrefixOf (c :: rest) then
      repl ++ replAux pat repl fuel (List.drop pat.length (c :: rest))
    else
      c :: replAux pat repl fuel rest

/-- Python's `s.replace(pat, repl)` for nonempty `pat`: substitute every
non-overlapping occurrence, scanning left to right. -/
def replaceAll (pat repl s : Path) : Path :=
  replAux pat repl s.length s

/-- The target path derivation from `load`:
`path.replace('input', 'output').replace('jpg', 'png')`. -/
def derivedPath (p : Path) : Path :=
  replaceAll "jpg".data "png".data (replaceAll "input".data "output".data p)

/-- `pat` occurs as a contiguous substring of `l`. -/
def hasSub (pat : Path) : Path → Bool
  | [] => pat.isEmpty
  | c :: rest => pat.isPrefixOf (c :: rest) || hasSub pat rest

/-- `pat` provably mismatches `s` on the overlap of the two, so `pat` cannot
be a prefix of `s ++ rest` for any continuation `rest`. -/
def clash (pat s : Path) : Bool :=
  (pat.zip s).any (fun ab => ab.1 != ab.2)

/-- No occurrence of `pat` can start strictly inside `xs`, whatever text
follows `xs`. -/
def noStartWithin (pat : Path) : Path → Bool
  | [] => true
  | c :: rest => clash pat (c :: rest) && noStartWithin pat rest

/-- On-disk file formats relevant to the image decoders. -/
inductive Fmt
  | jpeg
  | png
  | gif
  | bmp
  | other
deriving DecidableEq

/-- An undecoded file: its container format together with the image payload
it decodes to. -/
structure Content where
  fmt : Fmt
  img : Image

/-- Errors surfaced by the loading pipeline. -/
inductive LoadErr
  | missingFile
  | decodeError
deriving DecidableEq

/-- A filesystem: a partial map from paths to file contents.  `none` means
the file is absent (so `tf.io.read_file` raises). -/
abbrev FS := Path → Option Content

/-- Formats the `DecodeJpeg` kernel accepts: TensorFlow's `decode_jpeg`
also decodes PNGs, BMPs and non-animated GIFs (the decode ops share one
content-sniffing kernel); everything else raises. -/
def jpegKernelAccepts : Fmt → Bool
  | .jpeg => true
  | .png => true
  | .gif => true
  | .bmp => true
  | .other => false

/-- Model of `tf.image.decode_jpeg` (the float cast that follows it in the
script does not change the modelled payload). -/
def decode_jpeg (c : Content) : Except LoadErr Image :=
  if jpegKernelAccepts c.fmt then .ok c.img else .error .decodeError

/-- Observable pipeline events: file reads, and generator/discriminator
forward passes. -/
inductive TraceEv
  | fileRead : Path → TraceEv
  | genForward : TraceEv
  | discForward : TraceEv
deriving DecidableEq

/-- `load(image_file)` from the script: read and jpeg-decode the input image,
derive the target path by `replace('input','output').replace('jpg','png')`,
then read and jpeg-decode the target with the same `decode_jpeg` decoder.
Returns the trace of attempted file reads together with the result; a missing
file or undecodable content is a fatal error. -/
def load (fs : FS) (image_file : Path) : List TraceEv × Except LoadErr (Image × Image) :=
  match fs image_file with
  | none => ([.fileRead image_file], .error .missingFile)
  | some c₁ =>
    match decode_jpeg c₁ with
    | .error e => ([.fileRead image_file], .error e)
    | .ok input_image =>
      let path := derivedPath image_file
      match fs path with
      | none => ([.fileRead image_file, .fileRead path], .error .missingFile)
      | some c₂ =>
        match decode_jpeg c₂ with
        | .error e => ([.fileRead image_file, .fileRead path], .error e)
        | .ok image_output =>
          ([.fileRead image_file, .fileRead path], .ok (input_image, image_output))

/-- `load_image_train(image_file)` from the script: `load`, then
`random_jitter`, then `normalize` (the jitter's random crop offset and flip
draw are passed explicitly). -/
def load_image_train (fs : FS) (image_file : Path) (dy dx : Nat) (u : ℚ) :
    List TraceEv × Except LoadErr (Image × Image) :=
  match load fs image_file with
  | (evs, .error e) => (evs, .error e)
  | (evs, .ok (input_image, real_image)) =>
    let ir1 := random_jitter input_image real_image dy dx u
    let ir2 := normalize ir1.1 ir1.2
    (evs, .ok ir2)

/-- `load_image_test(image_file)` from the script: `load`, then a
deterministic resize to `IMG_HEIGHT × IMG_WIDTH`, then `normalize`. -/
def load_image_test (fs : FS) (image_file : Path) : Except LoadErr (Image × Image) :=
  match (load fs image_file).2 with
  | .error e => .error e
  | .ok (input_image, real_image) =>
    let ir1 := resize input_image real_image IMG_HEIGHT IMG_WIDTH
    .ok (normalize ir1.1 ir1.2)

/-- Processing one training sample end to end: `load_image_train`, and — only
if loading succeeded — the three forward passes of `train_step`
(`generator(input)`, `discriminator([input, target])`,
`discriminator([input, gen_output])`). -/
def train_on_sample (fs : FS) (image_file : Path) (dy dx : Nat) (u : ℚ) :
    List TraceEv × Except LoadErr Unit :=
  match load_image_train fs image_file dy dx u with
  | (evs, .error e) => (evs, .error e)
  | (evs, .ok _) => (evs ++ [.genForward, .discForward, .discForward], .ok ())

/-- Worker for `batchList`, structurally recursive on a fuel bound (always
instantiated with the list length, which suffices for batch size ≥ 1). -/
def batchAux (n : Nat) : Nat → List α → List (List α)
  | _, [] => []
  | 0, l => [l]
  | fuel + 1, x :: xs => (x :: xs.take (n - 1)) :: batchAux n fuel (xs.drop (n - 1))

/-- Model of `Dataset.batch(n)` on an in-order stream: group consecutive
elements into chunks of `n`. -/
def batchList (n : Nat) (l : List α) : List (List α) :=
  batchAux n l.length l

/-- Model of `tf.data.Dataset.list_files(pattern)`: the matched file names
are shuffled (the op's `shuffle` argument defaults to `True`, reshuffling on
each iteration); the shuffle is modelled as a seed-indexed rotation, one seed
per iteration of the stream. -/
def list_files (matched : List Path) (rng : Nat) : List Path :=
  matched.rotate rng

/-- The script's test pipeline:
`tf.data.Dataset.list_files(pathInputVal).map(load_image_test).batch(BATCH_SIZE)`
— no `.shuffle(...)` stage and no `.repeat()`. -/
def test_dataset (fs : FS) (matched : List Path) (rng : Nat) :
    List (List (Except LoadErr (Image × Image))) :=
  batchList BATCH_SIZE ((list_files matched rng).map (fun p => load_image_test fs p))

/-- Both images of a successfully loaded sample have height and width 512
(vacuously true for failed loads). -/
def dims512 : Except LoadErr (Image × Image) → Bool
  | .ok (a, b) => a.height == 512 && a.width == 512 && b.height == 512 && b.width == 512
  | .error _ => true

/-- Model of `optimizer.apply_gradients(zip(gradients, variables))`: the
parameter store maps variable ids to values; each `(gradient, variable)` pair
updates only its own variable via the optimizer's update rule `upd`. -/
def apply_gradients (upd : ℚ → ℚ → ℚ) : List (ℚ × Nat) → (Nat → ℚ) → Nat → ℚ
  | [], s => s
  | gv :: rest, s =>
    apply_gradients upd rest (fun w => if w = gv.2 then upd (s w) gv.1 else s w)

/-- `train_step` from the script, at the level of parameter stores: both
losses are recorded on independent tapes at the pre-update store `s`;
`gen_tape.gradient(gen_total_loss, generator.trainable_variables)` is the
gradient list of the generator's total loss with respect to exactly the
generator's trainable variables (and likewise for the discriminator), and
each optimizer applies its gradient list zipped with its own model's
variables.  `grad loss s v` is the autodiff oracle: the derivative of the
scalar `loss` at store `s` with respect to variable `v`. -/
def train_step (grad : ((Nat → ℚ) → ℚ) → (Nat → ℚ) → Nat → ℚ) (upd : ℚ → ℚ → ℚ)
    (gen_total_loss disc_loss : (Nat → ℚ) → ℚ)
    (generator_vars discriminator_vars : List Nat) (s : Nat → ℚ) : Nat → ℚ :=
  let generator_gradients := generator_vars.map (grad gen_total_loss s)
  let discriminator_gradients := discriminator_vars.map (grad disc_loss s)
  let s₁ := apply_gradients upd (generator_gradients.zip generator_vars) s
  apply_gradients upd (discriminator_gradients.zip discriminator_vars) s₁

/-- The generator half of `train_step`'s updates: only
`generator_optimizer.apply_gradients(zip(generator_gradients,
generator.trainable_variables))`. -/
def generatorUpdate (grad : ((Nat → ℚ) → ℚ) → (Nat → ℚ) → Nat → ℚ) (upd : ℚ → ℚ → ℚ)
    (gen_total_loss : (Nat → ℚ) → ℚ) (generator_vars : List Nat)
    (s s' : Nat → ℚ) : Nat → ℚ :=
  apply_gradients upd ((generator_vars.map (grad gen_total_loss s)).zip generator_vars) s'

/-- The discriminator half of `train_step`'s updates: only
`discriminator_optimizer.apply_gradients(zip(discriminator_gradients,
discriminator.trainable_variables))`. -/
def discriminatorUpdate (grad : ((Nat → ℚ) → ℚ) → (Nat → ℚ) → Nat → ℚ) (upd : ℚ → ℚ → ℚ)
    (disc_loss : (Nat → ℚ) → ℚ) (discriminator_vars : List Nat)
    (s s' : Nat → ℚ) : Nat → ℚ :=
  apply_gradients upd ((discriminator_vars.map (grad disc_loss s)).zip discriminator_vars) s'

/-- `display_list[i] * 0.5 + 0.5`, the rescaling `generate_images` applies to
each displayed image. -/
def dispScale (img : Image) : Image :=
  { height := img.height
    width := img.width
    channels := img.channels
    pix := fun i j c => img.pix i j c * (1 / 2) + 1 / 2 }

/-- `generate_images(model, test_input, tar)` from the script: run the model
on the held-out input with `training=True` and display the rescaled triple
`[test_input, tar, prediction]`. -/
def generate_images (model : Bool → Image → Image) (test_input tar : Image) :
    Image × Image × Image :=
  let prediction := model true test_input
  (dispScale test_input, dispScale tar, dispScale prediction)

/-- Observable trace of one `fit` run: how many `train_step` calls ran, how
many checkpoints were saved, the preview triples emitted, and the index (into
the training batch list) of each batch consumed. -/
structure FitTrace where
  trainSteps : Nat
  checkpoints : Nat
  previews : List (Image × Image × Image)
  consumed : List Nat

/-- One iteration of `fit`'s loop body at step counter `step`: every 1000
steps emit a preview via `generate_images(generator, example_input,
example_target)` (the generator's weights at that step are `gens step`);
always run `train_step` on the batch `step % numBatches` of the repeated
stream; save a checkpoint when `(step + 1) % 5000 == 0`. -/
def fitStep (gens : Nat → Bool → Image → Image) (exPair : Image × Image)
    (numBatches : Nat) (acc : FitTrace) (step : Nat) : FitTrace :=
  let acc₁ :=
    if step % 1000 = 0 then
      { acc with previews := acc.previews ++ [generate_images (gens step) exPair.1 exPair.2] }
    else acc
  let acc₂ :=
    { acc₁ with
      trainSteps := acc₁.trainSteps + 1
      consumed := acc₁.consumed ++ [step % numBatches] }
  if (step + 1) % 5000 = 0 then { acc₂ with checkpoints := acc₂.checkpoints + 1 } else acc₂

/-- `fit(train_ds, test_ds, steps)` from the script:
`for step, batch in train_ds.repeat().take(steps).enumerate()` — the
infinitely repeated training stream truncated to `steps` elements (zero
elements when the dataset is empty), with the loop body of `fitStep`.  The
generator evolves across steps, so its weights are given as a step-indexed
family `gens`. -/
def fit (gens : Nat → Bool → Image → Image) (batches : List (Image × Image))
    (exPair : Image × Image) (steps : Nat) : FitTrace :=
  (List.range (if batches.isEmpty then 0 else steps)).foldl
    (fitStep gens exPair batches.length)
    { trainSteps := 0, checkpoints := 0, previews := [], consumed := [] }

/-- A small concrete image used by witness theorems. -/
def witImg : Image :=
  { height := 2, width := 2, channels := 3, pix := fun _ _ _ => 100 }

/-- Concrete filesystem for the loader witnesses: only the single input file
`a/input/x.jpg` exists (its derived target `a/output/x.png` is absent). -/
def witFS : FS :=
  fun q => if q = "a/input/x.jpg".data then some { fmt := Fmt.jpeg, img := witImg } else none

/-- Filesystem for the C9 witness: the input and its derived target both
exist, the target stored as a PNG (which `decode_jpeg`'s kernel accepts). -/
def witFS₂ : FS :=
  fun q =>
    if q = "a/input/x.jpg".data then some { fmt := Fmt.jpeg, img := witImg }
    else if q = "a/output/x.png".data then some { fmt := Fmt.png, img := witImg }
    else none

/-- Projection of a test stream to the success pattern of its batches (the
images themselves carry functions, so the pattern is what is compared). -/
def obsStream (s : List (List (Except LoadErr (Image × Image)))) : List (List Bool) :=
  s.map (fun b => b.map Except.isOk)

/-- First test input path for the order counterexample. -/
def pA : Path := "d/input/a.jpg".data

/-- Second test input path for the order counterexample. -/
def pB : Path := "d/input/b.jpg".data

/-- Filesystem for the order counterexample: only `pA` and its derived
target exist, so `pA` loads and `pB` fails. -/
def witFS₃ : FS :=
  fun q =>
    if q = pA then some { fmt := Fmt.jpeg, img := witImg }
    else if q = derivedPath pA then some { fmt := Fmt.png, img := witImg }
    else none

/-- C3: within one call of the training augmentation, the input image and the
target image undergo the identical geometric transform — the same `542 × 542`
resize, the same random crop offset `(dy, dx)` and the same flip decision
`u > 0.5` — i.e. `random_jitter` factors through one single-image transform
applied to each of the two images with the shared random values. -/
theorem random_jitter_joint_transform (a b : Image) (dy dx : Nat) (u : ℚ) :
    random_jitter a b dy dx u = (jitterOne a dy dx u, jitterOne b dy dx u) := by
  simp only [random_jitter, jitterOne, resize, random_crop]
  by_cases h : u > 1 / 2
  · rw [if_pos h, if_pos h, if_pos h]
  · rw [if_neg h, if_neg h, if_neg h]

/-- C2: for decoded input and target images of arbitrary spatial size, the
training augmentation resizes both to the intermediate `542 × 542` size with
nearest-neighbour interpolation and then crops, always returning two images
of shape exactly `512 × 512 × 3`; in the non-flipped case each output pixel
is the corresponding pixel of the `542 × 542` nearest-neighbour resize,
shifted by the crop offset. -/
theorem random_jitter_output_shape (a b : Image) (dy dx : Nat) (u : ℚ)
    (hdy : dy ≤ 30) (hdx : dx ≤ 30) (hca : a.channels = 3) (hcb : b.channels = 3) :
    ((random_jitter a b dy dx u).1.height = 512 ∧
      (random_jitter a b dy dx u).1.width = 512 ∧
      (random_jitter a b dy dx u).1.channels = 3) ∧
    ((random_jitter a b dy dx u).2.height = 512 ∧
      (random_jitter a b dy dx u).2.width = 512 ∧
      (random_jitter a b dy dx u).2.channels = 3) ∧
    (∀ i j c, u ≤ 1 / 2 →
      (random_jitter a b dy dx u).1.pix i j c
        = a.pix (nnIdx a.height 542 (i + dy)) (nnIdx a.width 542 (j + dx)) c) := by
  simp only [random_jitter, resize, random_crop, cropImg, resizeImg, flip_left_right]
  by_cases h : u > 1 / 2
  · rw [if_pos h]
    exact ⟨⟨rfl, rfl, rfl⟩, ⟨rfl, rfl, rfl⟩, fun i j c hu => absurd h (not_lt.mpr hu)⟩
  · rw [if_neg h]
    exact ⟨⟨rfl, rfl, rfl⟩, ⟨rfl, rfl, rfl⟩, fun i j c hu => rfl⟩

/-- Witness for `random_jitter_output_shape` at a concrete image and concrete
random draws. -/
theorem random_jitter_output_shape_witness :
    (3 ≤ 30 ∧ 4 ≤ 30 ∧ witImg.channels = 3) ∧
    (((random_jitter witImg witImg 3 4 0).1.height = 512 ∧
        (random_jitter witImg witImg 3 4 0).1.width = 512 ∧
        (random_jitter witImg witImg 3 4 0).1.channels = 3) ∧
      ((random_jitter witImg witImg 3 4 0).2.height = 512 ∧
        (random_jitter witImg witImg 3 4 0).2.width = 512 ∧
        (random_jitter witImg witImg 3 4 0).2.channels = 3) ∧
      (∀ i j c, (0 : ℚ) ≤ 1 / 2 →
        (random_jitter witImg witImg 3 4 0).1.pix i j c
          = witImg.pix (nnIdx witImg.height 542 (i + 3)) (nnIdx witImg.width 542 (j + 4)) c)) :=
  ⟨⟨by norm_num, by norm_num, rfl⟩,
    random_jitter_output_shape witImg witImg 3 4 0 (by norm_num) (by norm_num) rfl rfl⟩

/-- C4: normalization `(x / 127.5) - 1` maps every pixel intensity in
`[0, 255]` into `[-1, 1]`, and `denormalize (x + 1) * 127.5` inverts it
exactly (hence in particular up to floating-point tolerance), for both images
the script normalizes. -/
theorem normalize_bounds_round_trip (a b : Image) (i j c : Nat)
    (h0a : 0 ≤ a.pix i j c) (h1a : a.pix i j c ≤ 255)
    (h0b : 0 ≤ b.pix i j c) (h1b : b.pix i j c ≤ 255) :
    (-1 ≤ (normalize a b).1.pix i j c ∧ (normalize a b).1.pix i j c ≤ 1 ∧
      denormalize ((normalize a b).1.pix i j c) = a.pix i j c) ∧
    (-1 ≤ (normalize a b).2.pix i j c ∧ (normalize a b).2.pix i j c ≤ 1 ∧
      denormalize ((normalize a b).2.pix i j c) = b.pix i j c) := by
  have hpos : (0 : ℚ) < 127.5 := by norm_num
  unfold normalize normalizeImg denormalize
  constructor
  · refine ⟨?_, ?_, ?_⟩
    · have : 0 ≤ a.pix i j c / 127.5 := div_nonneg h0a (le_of_lt hpos)
      simpa using by linarith
    · have : a.pix i j c / 127.5 ≤ 2 := by rw [div_le_iff₀ hpos]; linarith
      simpa using by linarith
    · show (a.pix i j c / 127.5 - 1 + 1) * 127.5 = a.pix i j c
      field_simp
  · refine ⟨?_, ?_, ?_⟩
    · have : 0 ≤ b.pix i j c / 127.5 := div_nonneg h0b (le_of_lt hpos)
      simpa using by linarith
    · have : b.pix i j c / 127.5 ≤ 2 := by rw [div_le_iff₀ hpos]; linarith
      simpa using by linarith
    · show (b.pix i j c / 127.5 - 1 + 1) * 127.5 = b.pix i j c
      field_simp

/-- Witness for `normalize_bounds_round_trip` at a concrete image whose
pixels all hold `100`. -/
theorem normalize_bounds_round_trip_witness :
    (0 ≤ witImg.pix 0 0 0 ∧ witImg.pix 0 0 0 ≤ 255) ∧
    ((-1 ≤ (normalize witImg witImg).1.pix 0 0 0 ∧
        (normalize witImg witImg).1.pix 0 0 0 ≤ 1 ∧
        denormalize ((normalize witImg witImg).1.pix 0 0 0) = witImg.pix 0 0 0) ∧
      (-1 ≤ (normalize witImg witImg).2.pix 0 0 0 ∧
        (normalize witImg witImg).2.pix 0 0 0 ≤ 1 ∧
        denormalize ((normalize witImg witImg).2.pix 0 0 0) = witImg.pix 0 0 0)) :=
  ⟨⟨by norm_num [witImg], by norm_num [witImg]⟩,
    normalize_bounds_round_trip witImg witImg 0 0 0
      (by norm_num [witImg]) (by norm_num [witImg])
      (by norm_num [witImg]) (by norm_num [witImg])⟩

/-- A `(gradient, variable)` pair list leaves every variable that is not in
its variable column untouched. -/
theorem apply_gradients_not_mem (upd : ℚ → ℚ → ℚ) :
    ∀ (pairs : List (ℚ × Nat)) (s : Nat → ℚ) (v : Nat),
      (∀ gv ∈ pairs, v ≠ gv.2) → apply_gradients upd pairs s v = s v := by
  intro pairs
  induction pairs with
  | nil => intro s v _; rfl
  | cons gv rest ih =>
    intro s v h
    show apply_gradients upd rest _ v = s v
    rw [ih _ v fun gv' hm => h gv' (List.mem_cons_of_mem _ hm)]
    simp [h gv (List.mem_cons_self _ _)]

/-- C1: in `train_step`, generator gradients are taken from the generator's
total loss with respect to exactly the generator's trainable variables, and
discriminator gradients from the discriminator loss with respect to exactly
the discriminator's trainable variables (both at the shared pre-update store
`s`); provided the two models' variable sets are disjoint, applying the
discriminator's update (from any store `s'`) never changes a generator
variable, applying the generator's update never changes a discriminator
variable, and the value of every generator variable after the full
`train_step` is exactly its value after the generator-only update. -/
theorem train_step_gradient_isolation
    (grad : ((Nat → ℚ) → ℚ) → (Nat → ℚ) → Nat → ℚ) (upd : ℚ → ℚ → ℚ)
    (gen_total_loss disc_loss : (Nat → ℚ) → ℚ)
    (generator_vars discriminator_vars : List Nat) (s : Nat → ℚ)
    (hdisj : ∀ v, v ∈ generator_vars → v ∉ discriminator_vars) :
    (∀ s' v, v ∈ generator_vars →
      discriminatorUpdate grad upd disc_loss discriminator_vars s s' v = s' v) ∧
    (∀ s' v, v ∈ discriminator_vars →
      generatorUpdate grad upd gen_total_loss generator_vars s s' v = s' v) ∧
    (∀ v, v ∈ generator_vars →
      train_step grad upd gen_total_loss disc_loss generator_vars discriminator_vars s v
        = generatorUpdate grad upd gen_total_loss generator_vars s s v) := by
  refine ⟨?_, ?_, ?_⟩
  · intro s' v hv
    refine apply_gradients_not_mem upd _ s' v fun gv hm => ?_
    intro hEq
    exact hdisj v hv (hEq ▸ (List.of_mem_zip hm).2)
  · intro s' v hv
    refine apply_gradients_not_mem upd _ s' v fun gv hm => ?_
    intro hEq
    exact hdisj gv.2 (List.of_mem_zip hm).2 (hEq ▸ hv)
  · intro v hv
    show apply_gradients upd _ _ v = _
    refine apply_gradients_not_mem upd _ _ v fun gv hm => ?_
    intro hEq
    exact hdisj v hv (hEq ▸ (List.of_mem_zip hm).2)

/-- Witness for `train_step_gradient_isolation` with one generator variable
`0` and one discriminator variable `1`, plain gradient-descent update and a
constant-`1` gradient oracle. -/
theorem train_step_gradient_isolation_witness :
    (∀ v, v ∈ [0] → v ∉ [1]) ∧
    ((∀ s' v, v ∈ [0] →
        discriminatorUpdate (fun _ _ _ => 1) (fun x g => x - g) (fun _ => 0) [1]
          (fun _ => 0) s' v = s' v) ∧
      (∀ s' v, v ∈ [1] →
        generatorUpdate (fun _ _ _ => 1) (fun x g => x - g) (fun _ => 0) [0]
          (fun _ => 0) s' v = s' v) ∧
      (∀ v, v ∈ [0] →
        train_step (fun _ _ _ => 1) (fun x g => x - g) (fun _ => 0) (fun _ => 0) [0] [1]
          (fun _ => 0) v
          = generatorUpdate (fun _ _ _ => 1) (fun x g => x - g) (fun _ => 0) [0]
              (fun _ => 0) (fun _ => 0) v)) :=
  ⟨by decide,
    train_step_gradient_isolation (fun _ _ _ => 1) (fun x g => x - g)
      (fun _ => 0) (fun _ => 0) [0] [1] (fun _ => 0) (by decide)⟩

/-- One loop iteration always runs exactly one `train_step`. -/
theorem fitStep_trainSteps (gens : Nat → Bool → Image → Image) (exPair : Image × Image)
    (nb : Nat) (acc : FitTrace) (i : Nat) :
    (fitStep gens exPair nb acc i).trainSteps = acc.trainSteps + 1 := by
  simp only [fitStep]
  split <;> split <;> rfl

/-- One loop iteration saves a checkpoint exactly when `(i + 1) % 5000 = 0`. -/
theorem fitStep_checkpoints (gens : Nat → Bool → Image → Image) (exPair : Image × Image)
    (nb : Nat) (acc : FitTrace) (i : Nat) :
    (fitStep gens exPair nb acc i).checkpoints
      = acc.checkpoints + (if (i + 1) % 5000 = 0 then 1 else 0) := by
  simp only [fitStep]
  split <;> split <;> simp

/-- One loop iteration consumes exactly the batch at index `i % nb` of the
repeated stream. -/
theorem fitStep_consumed (gens : Nat → Bool → Image → Image) (exPair : Image × Image)
    (nb : Nat) (acc : FitTrace) (i : Nat) :
    (fitStep gens exPair nb acc i).consumed = acc.consumed ++ [i % nb] := by
  simp only [fitStep]
  split <;> split <;> rfl

/-- One loop iteration emits a preview exactly when `i % 1000 = 0`, and that
preview is `generate_images` of the step-`i` generator on the held-out
example. -/
theorem fitStep_previews (gens : Nat → Bool → Image → Image) (exPair : Image × Image)
    (nb : Nat) (acc : FitTrace) (i : Nat) :
    (fitStep gens exPair nb acc i).previews
      = acc.previews
        ++ (if i % 1000 = 0 then [generate_images (gens i) exPair.1 exPair.2] else []) := by
  simp only [fitStep]
  split <;> split <;> simp

/-- Folding the loop body over `n` step indices runs `n` train steps. -/
theorem fit_fold_trainSteps (gens : Nat → Bool → Image → Image) (exPair : Image × Image)
    (nb : Nat) :
    ∀ (n : Nat) (acc : FitTrace),
      ((List.range n).foldl (fitStep gens exPair nb) acc).trainSteps
        = acc.trainSteps + n := by
  intro n
  induction n with
  | zero => intro acc; rfl
  | succ n ih =>
    intro acc
    rw [List.range_succ, List.foldl_append]
    simp only [List.foldl_cons, List.foldl_nil]
    rw [fitStep_trainSteps, ih]
    omega

/-- Folding the loop body over the first `n` step indices saves `n / 5000`
checkpoints. -/
theorem fit_fold_checkpoints (gens : Nat → Bool → Image → Image) (exPair : Image × Image)
    (nb : Nat) :
    ∀ (n : Nat) (acc : FitTrace),
      ((List.range n).foldl (fitStep gens exPair nb) acc).checkpoints
        = acc.checkpoints + n / 5000 := by
  intro n
  induction n with
  | zero => intro acc; rfl
  | succ n ih =>
    intro acc
    rw [List.range_succ, List.foldl_append]
    simp only [List.foldl_cons, List.foldl_nil]
    rw [fitStep_checkpoints, ih, Nat.succ_div]
    have : 5000 ∣ n + 1 ↔ (n + 1) % 5000 = 0 := Nat.dvd_iff_mod_eq_zero
    by_cases h : (n + 1) % 5000 = 0
    · rw [if_pos h, if_pos (this.mpr h)]
      omega
    · rw [if_neg h, if_neg (fun hd => h (this.mp hd))]
      omega

/-- Folding the loop body over the first `n` step indices consumes the
batches of the repeated stream in order. -/
theorem fit_fold_consumed (gens : Nat → Bool → Image → Image) (exPair : Image × Image)
    (nb : Nat) :
    ∀ (n : Nat) (acc : FitTrace),
      ((List.range n).foldl (fitStep gens exPair nb) acc).consumed
        = acc.consumed ++ (List.range n).map (fun i => i % nb) := by
  intro n
  induction n with
  | zero => intro acc; simp
  | succ n ih =>
    intro acc
    rw [List.range_succ, List.foldl_append]
    simp only [List.foldl_cons, List.foldl_nil]
    rw [fitStep_consumed, ih]
    simp

/-- Folding the loop body over the first `n` step indices emits exactly the
per-1000-steps previews, each generated by `generate_images` from the
generator weights at that step. -/
theorem fit_fold_previews (gens : Nat → Bool → Image → Image) (exPair : Image × Image)
    (nb : Nat) :
    ∀ (n : Nat) (acc : FitTrace),
      ((List.range n).foldl (fitStep gens exPair nb) acc).previews
        = acc.previews
          ++ ((List.range n).filter (fun i => i % 1000 == 0)).map
              (fun i => generate_images (gens i) exPair.1 exPair.2) := by
  intro n
  induction n with
  | zero => intro acc; simp
  | succ n ih =>
    intro acc
    rw [List.range_succ, List.foldl_append]
    simp only [List.foldl_cons, List.foldl_nil]
    rw [fitStep_previews, ih, List.filter_append]
    by_cases h : n % 1000 = 0
    · simp [h]
    · simp [h]

/-- C8: with a nonempty training set, `fit` executes exactly `steps`
train-step iterations over the infinitely repeated stream (consuming batch
`i % (number of batches)` at step `i`) and then stops; it saves a checkpoint
only when `(step + 1)` is a multiple of 5000, hence `steps / 5000` times in
total and never when `steps < 5000` — in particular, with exactly 2 training
pairs and `steps = 3` it runs exactly 3 training steps and writes no
checkpoint. -/
theorem fit_step_count (gens : Nat → Bool → Image → Image)
    (batches : List (Image × Image)) (exPair : Image × Image) (steps : Nat)
    (h : batches ≠ []) :
    (fit gens batches exPair steps).trainSteps = steps ∧
    (fit gens batches exPair steps).checkpoints = steps / 5000 ∧
    (steps < 5000 → (fit gens batches exPair steps).checkpoints = 0) ∧
    (fit gens batches exPair steps).consumed
      = (List.range steps).map (fun i => i % batches.length) := by
  have hne : batches.isEmpty = false := by
    cases batches with
    | nil => exact absurd rfl h
    | cons x xs => rfl
  unfold fit
  rw [hne]
  simp only [Bool.false_eq_true, if_false]
  refine ⟨?_, ?_, ?_, ?_⟩
  · rw [fit_fold_trainSteps]
    simp
  · rw [fit_fold_checkpoints]
    simp
  · intro hlt
    rw [fit_fold_checkpoints]
    simp [Nat.div_eq_of_lt hlt]
  · rw [fit_fold_consumed]
    simp

/-- Witness for `fit_step_count`: two training pairs and `steps = 3` give
exactly 3 training steps and no checkpoint. -/
theorem fit_step_count_witness :
    ([(witImg, witImg), (witImg, witImg)] : List (Image × Image)) ≠ [] ∧
    ((fit (fun _ _ x => x) [(witImg, witImg), (witImg, witImg)] (witImg, witImg) 3).trainSteps
        = 3 ∧
      (fit (fun _ _ x => x) [(witImg, witImg), (witImg, witImg)] (witImg, witImg) 3).checkpoints
        = 3 / 5000 ∧
      (3 < 5000 →
        (fit (fun _ _ x => x) [(witImg, witImg), (witImg, witImg)] (witImg, witImg) 3).checkpoints
          = 0) ∧
      (fit (fun _ _ x => x) [(witImg, witImg), (witImg, witImg)] (witImg, witImg) 3).consumed
        = (List.range 3).map (fun i => i % 2)) :=
  ⟨List.cons_ne_nil _ _,
    fit_step_count (fun _ _ x => x) [(witImg, witImg), (witImg, witImg)] (witImg, witImg) 3
      (List.cons_ne_nil _ _)⟩

/-- C10: every preview evaluates the generator with the training-mode flag
set to `true`, never `false` — `generate_images`, and hence the per-1000-steps
visualization inside `fit`, is unchanged if the model's `training=false`
behaviour is replaced arbitrarily, as long as its `training=true` behaviour
agrees. -/
theorem generate_images_training_flag (m₁ m₂ : Bool → Image → Image)
    (test_input tar : Image) (gens₁ gens₂ : Nat → Bool → Image → Image)
    (batches : List (Image × Image)) (exPair : Image × Image) (steps : Nat)
    (hm : ∀ x, m₁ true x = m₂ true x)
    (hg : ∀ n x, gens₁ n true x = gens₂ n true x) :
    generate_images m₁ test_input tar = generate_images m₂ test_input tar ∧
    (fit gens₁ batches exPair steps).previews = (fit gens₂ batches exPair steps).previews := by
  have hgen : ∀ (m₁ m₂ : Bool → Image → Image), (∀ x, m₁ true x = m₂ true x) →
      ∀ a b, generate_images m₁ a b = generate_images m₂ a b := by
    intro m₁ m₂ hm a b
    unfold generate_images
    rw [hm a]
  refine ⟨hgen m₁ m₂ hm test_input tar, ?_⟩
  unfold fit
  rw [fit_fold_previews, fit_fold_previews]
  congr 1
  refine List.map_congr_left fun i _ => ?_
  exact hgen (gens₁ i) (gens₂ i) (hg i) exPair.1 exPair.2

/-- Witness for `generate_images_training_flag`: two models that agree in
training mode but differ arbitrarily in inference mode produce the same
preview. -/
theorem generate_images_training_flag_witness :
    (∀ x, (fun (_ : Bool) (x : Image) => x) true x
        = (fun (b : Bool) (x : Image) => if b then x else witImg) true x) ∧
    (generate_images (fun _ x => x) witImg witImg
        = generate_images (fun b x => if b then x else witImg) witImg witImg ∧
      (fit (fun _ _ x => x) [(witImg, witImg)] (witImg, witImg) 2).previews
        = (fit (fun _ (b : Bool) x => if b then x else witImg) [(witImg, witImg)]
            (witImg, witImg) 2).previews) :=
  ⟨fun x => rfl,
    generate_images_training_flag (fun _ x => x) (fun b x => if b then x else witImg)
      witImg witImg (fun _ _ x => x) (fun _ b x => if b then x else witImg)
      [(witImg, witImg)] (witImg, witImg) 2 (fun x => rfl) (fun n x => rfl)⟩

/-- C6: if the input file of a sample exists but the derived output file is
missing, processing that sample fails with a fatal load error, the trace
contains no generator or discriminator forward pass, and (whenever the input
decodes) the error is precisely the missing-file error raised while reading
the derived target. -/
theorem missing_target_fails_before_forward (fs : FS) (p : Path) (dy dx : Nat) (u : ℚ)
    (c : Content) (hin : fs p = some c) (hout : fs (derivedPath p) = none) :
    (train_on_sample fs p dy dx u).2.isOk = false ∧
    (∀ e ∈ (train_on_sample fs p dy dx u).1,
      e ≠ TraceEv.genForward ∧ e ≠ TraceEv.discForward) ∧
    ((decode_jpeg c).isOk = true →
      (train_on_sample fs p dy dx u).2 = .error .missingFile) := by
  cases hdec : decode_jpeg c with
  | error e =>
    have : train_on_sample fs p dy dx u = ([.fileRead p], .error e) := by
      simp [train_on_sample, load_image_train, load, hin, hdec]
    rw [this]
    refine ⟨rfl, ?_, ?_⟩
    · intro ev hev
      rw [List.mem_singleton] at hev
      subst hev
      exact ⟨fun h => TraceEv.noConfusion h, fun h => TraceEv.noConfusion h⟩
    · intro hok
      exact absurd hok (by simp [Except.isOk, Except.toBool])
  | ok img =>
    have : train_on_sample fs p dy dx u
        = ([.fileRead p, .fileRead (derivedPath p)], .error .missingFile) := by
      simp [train_on_sample, load_image_train, load, hin, hdec, hout]
    rw [this]
    refine ⟨rfl, ?_, fun _ => rfl⟩
    intro ev hev
    rcases List.mem_cons.mp hev with h1 | h2
    · subst h1
      exact ⟨fun h => TraceEv.noConfusion h, fun h => TraceEv.noConfusion h⟩
    · rw [List.mem_singleton] at h2
      subst h2
      exact ⟨fun h => TraceEv.noConfusion h, fun h => TraceEv.noConfusion h⟩

/-- Witness for `missing_target_fails_before_forward` on `witFS`. -/
theorem missing_target_fails_before_forward_witness :
    (witFS "a/input/x.jpg".data = some { fmt := Fmt.jpeg, img := witImg } ∧
      witFS (derivedPath "a/input/x.jpg".data) = none) ∧
    ((train_on_sample witFS "a/input/x.jpg".data 0 0 0).2.isOk = false ∧
      (∀ e ∈ (train_on_sample witFS "a/input/x.jpg".data 0 0 0).1,
        e ≠ TraceEv.genForward ∧ e ≠ TraceEv.discForward) ∧
      ((decode_jpeg { fmt := Fmt.jpeg, img := witImg }).isOk = true →
        (train_on_sample witFS "a/input/x.jpg".data 0 0 0).2 = .error .missingFile)) :=
  ⟨⟨by simp [witFS], by simp only [witFS]; rw [if_neg (by decide)]⟩,
    missing_target_fails_before_forward witFS "a/input/x.jpg".data 0 0 0
      { fmt := Fmt.jpeg, img := witImg }
      (by simp [witFS])
      (by simp only [witFS]; rw [if_neg (by decide)])⟩

/-- C9: `load` decodes the derived target — whose path carries the `.png`
extension — with the very same `decode_jpeg` decoder it applies to the input:
it returns a pair exactly when both files exist and `decode_jpeg` accepts
both contents, and whenever the target's format is one `decode_jpeg`'s
kernel rejects, the load fails. -/
theorem load_uses_decode_jpeg_for_target (fs : FS) (p : Path) (a b : Image) :
    ((load fs p).2 = .ok (a, b) ↔
      ∃ ca cb, fs p = some ca ∧ fs (derivedPath p) = some cb ∧
        decode_jpeg ca = .ok a ∧ decode_jpeg cb = .ok b) ∧
    (∀ cb, fs (derivedPath p) = some cb → jpegKernelAccepts cb.fmt = false →
      (load fs p).2.isOk = false) := by
  cases h1 : fs p with
  | none =>
    constructor
    · simp [load, h1]
    · intro cb _ _
      simp [load, h1, Except.isOk, Except.toBool]
  | some c1 =>
    cases h2 : decode_jpeg c1 with
    | error e =>
      constructor
      · simp [load, h1, h2]
      · intro cb _ _
        simp [load, h1, h2, Except.isOk, Except.toBool]
    | ok i =>
      cases h3 : fs (derivedPath p) with
      | none =>
        constructor
        · simp [load, h1, h2, h3]
        · intro cb hcb _
          exact Option.noConfusion hcb
      | some c2 =>
        cases h4 : decode_jpeg c2 with
        | error e =>
          constructor
          · constructor
            · intro h
              simp [load, h1, h2, h3, h4] at h
            · rintro ⟨ca, cb, hca, hcb, hda, hdb⟩
              rw [Option.some_inj] at hca hcb
              subst hca
              subst hcb
              rw [h4] at hdb
              exact absurd hdb (by simp)
          · intro cb _ _
            simp [load, h1, h2, h3, h4, Except.isOk, Except.toBool]
        | ok o =>
          constructor
          · constructor
            · intro h
              simp only [load, h1, h2, h3, h4] at h
              have hpair := Except.ok.inj h
              have hia : i = a := congrArg Prod.fst hpair
              have hob : o = b := congrArg Prod.snd hpair
              subst hia
              subst hob
              exact ⟨c1, c2, rfl, rfl, h2, h4⟩
            · rintro ⟨ca, cb, hca, hcb, hda, hdb⟩
              rw [Option.some_inj] at hca hcb
              subst hca
              subst hcb
              rw [h2] at hda
              rw [h4] at hdb
              simp only [load, h1, h2, h3, h4]
              rw [Except.ok.inj hda, Except.ok.inj hdb]
          · intro cb hcb hacc
            rw [Option.some_inj] at hcb
            subst hcb
            rw [decode_jpeg, hacc] at h4
            exact absurd h4 (by simp)

/-- Witness for `load_uses_decode_jpeg_for_target`: on `witFS₂` the sample
loads, and the characterization produces the decoded pair. -/
theorem load_uses_decode_jpeg_for_target_witness :
    (load witFS₂ "a/input/x.jpg".data).2 = .ok (witImg, witImg) :=
  (load_uses_decode_jpeg_for_target witFS₂ "a/input/x.jpg".data witImg witImg).1.mpr
    ⟨{ fmt := Fmt.jpeg, img := witImg }, { fmt := Fmt.png, img := witImg },
      by simp [witFS₂],
      by
        have hd : derivedPath "a/input/x.jpg".data = "a/output/x.png".data := by decide
        rw [hd]
        simp only [witFS₂]
        rw [if_neg (by decide)]
        simp,
      rfl, rfl⟩

/-- Batching with batch size 1 groups a stream into singleton batches, in
order (fuel-indexed worker form). -/
theorem batchAux_one {α : Type} :
    ∀ (f : Nat) (l : List α), l.length ≤ f →
      batchAux 1 f l = l.map (fun x => [x]) := by
  intro f
  induction f with
  | zero =>
    intro l hl
    have hnil : l = [] := List.eq_nil_of_length_eq_zero (Nat.le_zero.mp hl)
    subst hnil
    rfl
  | succ f ih =>
    intro l hl
    cases l with
    | nil => rfl
    | cons x xs =>
      show (x :: xs.take 0) :: batchAux 1 f (xs.drop 0) = _
      rw [List.take_zero, List.drop_zero, List.map_cons,
        ih xs (Nat.le_of_succ_le_succ (by simpa using hl))]

/-- C7 (amended): the test stream maps the loader plus the deterministic
512-resize evaluation augmentation over the matched paths and batches into
groups of 1 — so per batch it is a singleton of `load_image_test` and, as a
multiset, it is exactly the unshuffled per-path results, every successfully
loaded sample having height and width 512; but the path order itself is the
`list_files` shuffle of the matched paths (the op shuffles by default), not
the fixed matched order. -/
theorem test_stream_amended (fs : FS) (matched : List Path) (rng : Nat) :
    test_dataset fs matched rng
      = (list_files matched rng).map (fun p => [load_image_test fs p]) ∧
    List.Perm (test_dataset fs matched rng)
      (matched.map (fun p => [load_image_test fs p])) ∧
    (∀ p, dims512 (load_image_test fs p) = true) := by
  have hb : test_dataset fs matched rng
      = (list_files matched rng).map (fun p => [load_image_test fs p]) := by
    show batchAux 1 _ _ = _
    rw [batchAux_one _ _ (le_refl _), List.map_map]
    rfl
  refine ⟨hb, ?_, ?_⟩
  · rw [hb]
    exact (List.rotate_perm matched rng).map fun p => [load_image_test fs p]
  · intro p
    unfold load_image_test
    cases h : (load fs p).2 with
    | error e => rfl
    | ok ir =>
      cases ir with
      | mk i r => rfl

/-- C7 (counterexample): the test stream is *not* delivered in the same
deterministic order on every iteration — two iterations of the stream over
the same two matched files (with different `list_files` shuffle draws)
deliver the samples in different orders. -/
theorem test_stream_order_counterexample :
    test_dataset witFS₃ [pA, pB] 0 ≠ test_dataset witFS₃ [pA, pB] 1 :=
  fun h => absurd (congrArg obsStream h) (by decide)

/-- `replAux` does not depend on the fuel once the fuel covers the text
length (for nonempty patterns). -/
theorem replAux_fuel (pat repl : Path) (hp : pat ≠ []) :
    ∀ (f₁ f₂ : Nat) (l : Path), l.length ≤ f₁ → l.length ≤ f₂ →
      replAux pat repl f₁ l = replAux pat repl f₂ l := by
  intro f₁
  induction f₁ with
  | zero =>
    intro f₂ l h1 _
    have hnil : l = [] := List.eq_nil_of_length_eq_zero (Nat.le_zero.mp h1)
    subst hnil
    cases f₂ <;> rfl
  | succ f ih =>
    intro f₂ l h1 h2
    cases l with
    | nil => cases f₂ <;> rfl
    | cons c rest =>
      cases f₂ with
      | zero => exact absurd h2 (by simp)
      | succ g =>
        rw [List.length_cons] at h1 h2
        have hplen : 1 ≤ pat.length := by
          cases pat with
          | nil => exact absurd rfl hp
          | cons a as => simp
        simp only [replAux]
        by_cases hpre : pat.isPrefixOf (c :: rest) = true
        · rw [if_pos hpre, if_pos hpre]
          have hdl : (List.drop pat.length (c :: rest)).length ≤ f := by
            rw [List.length_drop, List.length_cons]
            omega
          have hdg : (List.drop pat.length (c :: rest)).length ≤ g := by
            rw [List.length_drop, List.length_cons]
            omega
          rw [ih g (List.drop pat.length (c :: rest)) hdl hdg]
        · rw [if_neg hpre, if_neg hpre]
          rw [ih g rest (by omega) (by omega)]

/-- Scanning step of `replaceAll` when the pattern does not start here. -/
theorem replaceAll_cons_of_not_pre (pat repl : Path) (c : Char) (rest : Path)
    (h : pat.isPrefixOf (c :: rest) = false) :
    replaceAll pat repl (c :: rest) = c :: replaceAll pat repl rest := by
  show replAux pat repl (rest.length + 1) (c :: rest) = _
  simp only [replAux]
  rw [if_neg (by simp [h])]
  rfl

/-- Unfolding equation for the prefix test on an empty pattern. -/
theorem isPrefixOf_nil_left (l : Path) : List.isPrefixOf [] l = true := by
  cases l <;> rfl

/-- Unfolding equation for the prefix test on two nonempty lists. -/
theorem isPrefixOf_cons_cons (a b : Char) (as bs : Path) :
    (a :: as).isPrefixOf (b :: bs) = (a == b && as.isPrefixOf bs) := rfl

/-- A list is a `isPrefixOf`-prefix of itself followed by anything. -/
theorem isPrefixOf_self_append : ∀ (l ys : Path), l.isPrefixOf (l ++ ys) = true := by
  intro l
  induction l with
  | nil => intro ys; rw [isPrefixOf_nil_left]
  | cons a as ih =>
    intro ys
    rw [List.cons_append, isPrefixOf_cons_cons, ih ys]
    simp

/-- Matching step of `replaceAll` when the text starts with the pattern. -/
theorem replaceAll_head_match (pat repl ys : Path) (hp : pat ≠ []) :
    replaceAll pat repl (pat ++ ys) = repl ++ replaceAll pat repl ys := by
  cases pat with
  | nil => exact absurd rfl hp
  | cons a as =>
    show replAux (a :: as) repl ((as ++ ys).length + 1) (a :: (as ++ ys)) = _
    simp only [replAux]
    rw [if_pos (by have := isPrefixOf_self_append (a :: as) ys; rwa [List.cons_append] at this)]
    congr 1
    have hdrop : List.drop (a :: as).length (a :: (as ++ ys)) = ys := by
      show List.drop (as.length + 1) (a :: (as ++ ys)) = ys
      rw [List.drop_succ_cons]
      exact List.drop_left as ys
    rw [hdrop]
    exact replAux_fuel (a :: as) repl hp _ _ ys (by simp) (le_refl _)

/-- A prefix test fails whenever the pattern and the text provably differ at
one position. -/
theorem isPrefixOf_eq_false_of_mismatch (pat : Path) :
    ∀ (l : Path) (k : Nat) (a b : Char),
      pat[k]? = some a → l[k]? = some b → a ≠ b → pat.isPrefixOf l = false := by
  induction pat with
  | nil =>
    intro l k a b hpa _ _
    exact absurd hpa (by simp)
  | cons p ps ih =>
    intro l k a b hpa hlb hab
    cases l with
    | nil => rfl
    | cons x xs =>
      cases k with
      | zero =>
        rw [List.getElem?_cons_zero] at hpa hlb
        have hpa' : p = a := Option.some_inj.mp hpa
        have hlb' : x = b := Option.some_inj.mp hlb
        subst hpa'
        subst hlb'
        simp only [List.isPrefixOf]
        rw [beq_eq_false_iff_ne.mpr hab, Bool.false_and]
      | succ k =>
        rw [List.getElem?_cons_succ] at hpa hlb
        simp only [List.isPrefixOf]
        rw [ih xs k a b hpa hlb hab, Bool.and_false]

/-- When the text is at least as long as the pattern, appending more text
does not change the prefix test. -/
theorem isPrefixOf_append_of_le (pat : Path) :
    ∀ (l ys : Path), pat.length ≤ l.length →
      pat.isPrefixOf (l ++ ys) = pat.isPrefixOf l := by
  induction pat with
  | nil => intro l ys _; rw [isPrefixOf_nil_left, isPrefixOf_nil_left]
  | cons p ps ih =>
    intro l ys h
    cases l with
    | nil => simp at h
    | cons x xs =>
      rw [List.cons_append, isPrefixOf_cons_cons, isPrefixOf_cons_cons,
        ih xs ys (by simpa using h)]

/-- A clash on the overlap kills the prefix test for every continuation. -/
theorem isPrefixOf_eq_false_of_clash (pat : Path) :
    ∀ (s rest : Path), clash pat s = true → pat.isPrefixOf (s ++ rest) = false := by
  induction pat with
  | nil =>
    intro s rest h
    exact absurd h (by simp [clash])
  | cons p ps ih =>
    intro s rest h
    cases s with
    | nil => exact absurd h (by simp [clash])
    | cons x xs =>
      simp only [clash, List.zip_cons_cons, List.any_cons] at h
      rcases Bool.or_eq_true_iff.mp h with h1 | h2
      · have hfalse : (p == x) = false := by
          simpa [bne] using h1
        rw [List.cons_append, isPrefixOf_cons_cons, hfalse, Bool.false_and]
      · rw [List.cons_append, isPrefixOf_cons_cons, ih xs rest h2, Bool.and_false]

/-- `noStartWithin` gives a clash at every start position. -/
theorem clash_drop_of_noStartWithin (pat : Path) :
    ∀ (xs : Path) (n : Nat), n < xs.length → noStartWithin pat xs = true →
      clash pat (List.drop n xs) = true := by
  intro xs
  induction xs with
  | nil => intro n hn _; simp at hn
  | cons c rest ih =>
    intro n hn h
    simp only [noStartWithin, Bool.and_eq_true] at h
    cases n with
    | zero => exact h.1
    | succ n =>
      rw [List.drop_succ_cons]
      exact ih n (by simpa using hn) h.2

/-- Walking `replaceAll` through a chunk inside which no occurrence of the
pattern can start: the chunk passes through unchanged. -/
theorem replaceAll_append_of_no_start (pat repl : Path) :
    ∀ (xs ys : Path),
      (∀ n, n < xs.length → pat.isPrefixOf (List.drop n xs ++ ys) = false) →
      replaceAll pat repl (xs ++ ys) = xs ++ replaceAll pat repl ys := by
  intro xs
  induction xs with
  | nil => intro ys _; rfl
  | cons c rest ih =>
    intro ys h
    have h0 : pat.isPrefixOf (c :: (rest ++ ys)) = false := by
      simpa using h 0 (by simp)
    rw [List.cons_append, replaceAll_cons_of_not_pre pat repl c (rest ++ ys) h0]
    rw [ih ys fun n hn => by simpa using h (n + 1) (by simpa using hn), List.cons_append]

/-- The chunk-walk, with the no-start condition checked by computation
(`noStartWithin`), usable for concrete path components. -/
theorem replaceAll_append_of_nsw (pat repl xs ys : Path)
    (h : noStartWithin pat xs = true) :
    replaceAll pat repl (xs ++ ys) = xs ++ replaceAll pat repl ys := by
  apply replaceAll_append_of_no_start
  intro n hn
  exact isPrefixOf_eq_false_of_clash pat (List.drop n xs) ys
    (clash_drop_of_noStartWithin pat xs n hn h)

/-- If the pattern occurs nowhere in `l` as a substring, it is a prefix of no
tail of `l`. -/
theorem not_pre_of_drop_of_no_sub (pat : Path) (hp : pat ≠ []) :
    ∀ (l : Path), hasSub pat l = false →
      ∀ n, pat.isPrefixOf (List.drop n l) = false := by
  intro l
  induction l with
  | nil =>
    intro _ n
    rw [List.drop_nil]
    cases pat with
    | nil => exact absurd rfl hp
    | cons p ps => rfl
  | cons c rest ih =>
    intro h n
    simp only [hasSub, Bool.or_eq_false_iff] at h
    cases n with
    | zero => exact h.1
    | succ n =>
      rw [List.drop_succ_cons]
      exact ih h.2 n

/-- The prefix test fails for a text shorter than the pattern followed by an
extension whose first character mismatches the pattern at the join. -/
theorem isPrefixOf_eq_false_at_ext (pat ext s : Path) (b : Char)
    (hb : ext[0]? = some b)
    (hlen : s.length < pat.length)
    (hmk : ∀ a, pat[s.length]? = some a → a ≠ b) :
    pat.isPrefixOf (s ++ ext) = false := by
  obtain ⟨a, ha⟩ : ∃ a, pat[s.length]? = some a := by
    cases hx : pat[s.length]? with
    | none =>
      rw [List.getElem?_eq_none_iff] at hx
      omega
    | some a => exact ⟨a, rfl⟩
  have hsb : (s ++ ext)[s.length]? = some b := by
    rw [List.getElem?_append_right (le_refl _)]
    simpa using hb
  exact isPrefixOf_eq_false_of_mismatch pat (s ++ ext) s.length a b ha hsb (hmk a ha)

/-- Walking `replaceAll` through an arbitrary chunk that contains no
occurrence of the pattern, followed by an extension: occurrences fully inside
the chunk are excluded by `hasSub`, occurrences reaching into the extension
by the join analysis `hshort`. -/
theorem replaceAll_base_ext (pat repl base ext : Path) (hp : pat ≠ [])
    (hbase : hasSub pat base = false)
    (hshort : ∀ n, n < base.length → (List.drop n base).length < pat.length →
        pat.isPrefixOf (List.drop n base ++ ext) = false) :
    replaceAll pat repl (base ++ ext) = base ++ replaceAll pat repl ext := by
  apply replaceAll_append_of_no_start
  intro n hn
  by_cases hlen : pat.length ≤ (List.drop n base).length
  · rw [isPrefixOf_append_of_le pat (List.drop n base) ext hlen]
    exact not_pre_of_drop_of_no_sub pat hp base hbase n
  · exact hshort n hn (by omega)

/-- An occurrence of `"input"` cannot start inside the last (fewer than 5)
characters of the basename: the pattern would have to put one of
`'n'`, `'p'`, `'u'`, `'t'` on the `'.'` of the `".jpg"` extension. -/
theorem input_short_mismatch (sChunk : Path) (hone : 1 ≤ sChunk.length)
    (hfive : sChunk.length < 5) :
    ("input".data).isPrefixOf (sChunk ++ ".jpg".data) = false := by
  refine isPrefixOf_eq_false_at_ext "input".data ".jpg".data sChunk '.' (by decide) ?_ ?_
  · rw [show ("input".data).length = 5 from by decide]
    exact hfive
  · intro a ha
    obtain ⟨m, hm⟩ : ∃ m, sChunk.length = m := ⟨_, rfl⟩
    rw [hm] at ha hone hfive
    interval_cases m <;> (intro hEq; subst hEq; revert ha; decide)

/-- An occurrence of `"jpg"` cannot start inside the last (fewer than 3)
characters of the basename: the pattern would have to put `'p'` or `'g'` on
the `'.'` of the `".jpg"` extension. -/
theorem jpg_short_mismatch (sChunk : Path) (hone : 1 ≤ sChunk.length)
    (hthree : sChunk.length < 3) :
    ("jpg".data).isPrefixOf (sChunk ++ ".jpg".data) = false := by
  refine isPrefixOf_eq_false_at_ext "jpg".data ".jpg".data sChunk '.' (by decide) ?_ ?_
  · rw [show ("jpg".data).length = 3 from by decide]
    exact hthree
  · intro a ha
    obtain ⟨m, hm⟩ : ∃ m, sChunk.length = m := ⟨_, rfl⟩
    rw [hm] at ha hone hthree
    interval_cases m <;> (intro hEq; subst hEq; revert ha; decide)

/-- C5 (counterexample): on the input path
`dataset/training/input/input1.jpg` the code does *not* leave the basename
unchanged — Python's `str.replace` rewrites every occurrence, so the derived
target is `dataset/training/output/output1.png`, not the claimed
`dataset/training/output/input1.png`. -/
theorem derived_path_counterexample :
    derivedPath "dataset/training/input/input1.jpg".data
        ≠ "dataset/training/output/input1.png".data ∧
    derivedPath "dataset/training/input/input1.jpg".data
        = "dataset/training/output/output1.png".data :=
  ⟨by decide, by decide⟩

/-- C5 (amended): the loader derives the target path by replacing every
occurrence of the substring `"input"` with `"output"` and then every
occurrence of `"jpg"` with `"png"`; on a canonical training path whose
basename contains neither `"input"` nor `"jpg"` as substrings this is
exactly the directory-token and extension rewrite, with the basename
unchanged. -/
theorem derived_path_amended (base : Path)
    (h1 : hasSub "input".data base = false)
    (h2 : hasSub "jpg".data base = false) :
    derivedPath ("dataset/training/input/".data ++ base ++ ".jpg".data)
      = "dataset/training/output/".data ++ base ++ ".png".data := by
  unfold derivedPath
  rw [show "dataset/training/input/".data
      = "dataset/training/".data ++ ("input".data ++ ['/']) from by decide]
  simp only [List.append_assoc]
  rw [replaceAll_append_of_nsw "input".data "output".data "dataset/training/".data _
    (by decide)]
  rw [replaceAll_head_match "input".data "output".data _ (by decide)]
  rw [replaceAll_append_of_nsw "input".data "output".data ['/'] _ (by decide)]
  rw [replaceAll_base_ext "input".data "output".data base ".jpg".data (by decide) h1
    (by
      intro n hn hlt
      refine input_short_mismatch (List.drop n base) ?_ ?_
      · rw [List.length_drop]
        omega
      · rw [show ("input".data).length = 5 from by decide] at hlt
        exact hlt)]
  rw [show replaceAll "input".data "output".data ".jpg".data = ".jpg".data from by decide]
  rw [replaceAll_append_of_nsw "jpg".data "png".data "dataset/training/".data _ (by decide)]
  rw [replaceAll_append_of_nsw "jpg".data "png".data "output".data _ (by decide)]
  rw [replaceAll_append_of_nsw "jpg".data "png".data ['/'] _ (by decide)]
  rw [replaceAll_base_ext "jpg".data "png".data base ".jpg".data (by decide) h2
    (by
      intro n hn hlt
      refine jpg_short_mismatch (List.drop n base) ?_ ?_
      · rw [List.length_drop]
        omega
      · rw [show ("jpg".data).length = 3 from by decide] at hlt
        exact hlt)]
  rw [show replaceAll "jpg".data "png".data ".jpg".data = ".png".data from by decide]
  rw [show ("dataset/training/".data : Path)
      = ['d', 'a', 't', 'a', 's', 'e', 't', '/', 't', 'r', 'a', 'i', 'n', 'i', 'n', 'g', '/']
      from by decide]
  rw [show ("output".data : Path) = ['o', 'u', 't', 'p', 'u', 't'] from by decide]
  rw [show (".png".data : Path) = ['.', 'p', 'n', 'g'] from by decide]
  simp [List.cons_append, List.append_assoc]

/-- Witness for `derived_path_amended` at the basename `fin1`. -/
theorem derived_path_amended_witness :
    (hasSub "input".data ['f', 'i', 'n', '1'] = false ∧
      hasSub "jpg".data ['f', 'i', 'n', '1'] = false) ∧
    derivedPath ("dataset/training/input/".data ++ ['f', 'i', 'n', '1'] ++ ".jpg".data)
      = "dataset/training/output/".data ++ ['f', 'i', 'n', '1'] ++ ".png".data :=
  ⟨⟨by decide, by decide⟩, derived_path_amended ['f', 'i', 'n', '1'] (by decide) (by decide)⟩

end ModelTraining
